import Mathlib

/-!
Shallow embedding of the effect-span-tree-demo repository.

From src (the span-tree logger module): the TraceSummary shape, the mock
SpanTree layer (mockSpanTreeLayer) and the withSpanLogging combinator.
JavaScript truthiness tests that appear in the source (on nullable strings)
are embedded explicitly: null and the empty string are falsy.

The production span store, eviction manager and query engine are not part
of src (they live in the external @clayroach/effect package); those parts
are modelled from the specification and are marked as such.
-/

namespace SpanTreeDemo

/-- Summary record returned by getTraceSummary (interface TraceSummary in
the source). `traceUrl : string | null` becomes `Option String`. -/
structure TraceSummary where
  traceId : String
  path : List String
  formattedPath : String
  depth : Nat
  spanCount : Nat
  traceUrl : Option String
deriving DecidableEq

/-- Options argument of getTraceSummary: `{ traceUrlBase?: string }`. -/
structure SummaryOptions where
  traceUrlBase : Option String
deriving DecidableEq

/-- Structural view returned by getTraceSpans:
`{spanId, name, parentSpanId}`. -/
structure SpanView where
  spanId : String
  name : String
  parentSpanId : Option String
deriving DecidableEq

/-- View returned by getLeafSpans in the interface: `{spanId, name}`. -/
structure LeafView where
  spanId : String
  name : String
deriving DecidableEq

/-- Mock layer getCurrentTraceId: the template string `trace-${Date.now()}`.
The ambient clock (Date.now) is modelled as a `Nat` argument. -/
def mockGetCurrentTraceId (now : Nat) : Option String :=
  some ("trace-" ++ toString now)

/-- Mock layer getCurrentSpanId: the template string `span-${Date.now()}`. -/
def mockGetCurrentSpanId (now : Nat) : Option String :=
  some ("span-" ++ toString now)

/-- Mock layer getDeepestPath: constant three-name path, the traceId
argument is ignored. -/
def mockGetDeepestPath (_traceId : String) : List String :=
  ["root", "child1", "child2"]

/-- The traceUrl computation of the mock getTraceSummary:
`options?.traceUrlBase ? base + "/traces/" + traceId : null`.
The JS conditional tests truthiness, so an absent base and an empty-string
base both yield null. -/
def optTraceUrl (base : Option String) (traceId : String) : Option String :=
  match base with
  | some b => if b = "" then none else some (b ++ "/traces/" ++ traceId)
  | none => none

/-- Mock layer getTraceSummary. The body reads only its arguments (it does
not consult the clock), but the clock parameter is kept so that the mock
operations share one ambient-world signature. -/
def mockGetTraceSummary (now : Nat) (traceId : String)
    (options : Option SummaryOptions) : TraceSummary :=
  { traceId := traceId
    path := ["root", "child1", "child2"]
    formattedPath := "root → child1 → child2"
    depth := 3
    spanCount := 3
    traceUrl := optTraceUrl (options.bind SummaryOptions.traceUrlBase) traceId }

/-- Mock layer getTraceSpans: constant empty array. -/
def mockGetTraceSpans (_traceId : String) : List SpanView := []

/-- Mock layer getLeafSpans: constant empty array. -/
def mockGetLeafSpans (_traceId : String) : List LeafView := []

/-- Attribute values attached to the active span by the finalizer:
the source attaches numbers (depth, span_count) and strings. -/
inductive AttrValue where
  | str (s : String)
  | num (n : Nat)
deriving DecidableEq

/-- One record of the in-memory audit log (interface AuditLog in the
source): pushed by the withSpanLogging finalizer. -/
structure AuditEntry where
  traceId : String
  deepestPath : String
  depth : Nat
  spanCount : Nat
  timestamp : Nat
  traceUrl : Option String
deriving DecidableEq

/-- The part of the SpanTree service that withSpanLogging consumes. -/
structure SpanTreeImpl where
  getCurrentTraceId : Option String
  getTraceSummary : String → Option SummaryOptions → TraceSummary

/-- Observable outcome of one withSpanLogging run: the attributes attached
to the active span, the audit records appended, and whether the no-trace
fallback branch was taken. -/
structure RunResult where
  attrs : List (String × AttrValue)
  audit : List AuditEntry
  usedFallback : Bool
deriving DecidableEq

/-- Default trace-URL base used by withSpanLogging:
`options.traceUrlBase ?? "https://ui.atrim.io"`. -/
def defaultTraceUrlBase : String := "https://ui.atrim.io"

/-- The summary the finalizer obtains: getTraceSummary with the user base
or, via nullish coalescing, the default base. -/
def finalizerSummary (tree : SpanTreeImpl) (userBase : Option String)
    (tid : String) : TraceSummary :=
  tree.getTraceSummary tid (some ⟨some (userBase.getD defaultTraceUrlBase)⟩)

/-- Shallow embedding of withSpanLogging's instrumentation effects.
`if (!traceId)` in the source tests JS truthiness, so a null and an
empty-string trace id both take the fallback branch; likewise
`if (summary.traceUrl)` guards the trace_url attribute, so a present but
empty traceUrl is not attached (the audit record still carries it). -/
def runWithSpanLogging (tree : SpanTreeImpl) (userBase : Option String)
    (now : Nat) : RunResult :=
  match tree.getCurrentTraceId with
  | none => ⟨[], [], true⟩
  | some tid =>
    if tid = "" then ⟨[], [], true⟩
    else
      let s := finalizerSummary tree userBase tid
      let urlAttrs : List (String × AttrValue) :=
        match s.traceUrl with
        | some u => if u = "" then [] else [("span_tree.trace_url", AttrValue.str u)]
        | none => []
      { attrs := [("span_tree.depth", AttrValue.num s.depth),
                  ("span_tree.deepest_path", AttrValue.str s.formattedPath),
                  ("span_tree.span_count", AttrValue.num s.spanCount)] ++ urlAttrs
        audit := [⟨tid, s.formattedPath, s.depth, s.spanCount, now, s.traceUrl⟩]
        usedFallback := false }

/-- The mock layer as a SpanTreeImpl at one instant of the clock. -/
def mockTree (now : Nat) : SpanTreeImpl :=
  ⟨mockGetCurrentTraceId now, mockGetTraceSummary now⟩

/-- Modelled from the spec: a stored span record (§3 data model); the
production span store is not part of src. -/
structure StoredSpan where
  spanId : String
  traceId : String
  parentSpanId : Option String
  name : String
  startedAt : Nat
  endedAt : Option Nat
deriving DecidableEq

/-- Modelled from the spec: per-trace bookkeeping of the span store — the
member spans in start order and the lastActivityAt recency stamp (§4.3). -/
structure TraceEntry where
  traceId : String
  lastActivityAt : Nat
  spans : List StoredSpan
deriving DecidableEq

/-- Modelled from the spec: the whole span store, the traces it holds. -/
structure Store where
  traces : List TraceEntry
deriving DecidableEq

/-- Modelled from the spec: capacity configuration with its defaults —
max total span count 10000, max trace count 1000 (§4.3, §6). -/
structure EvictionConfig where
  maxSpans : Nat := 10000
  maxTraces : Nat := 1000
deriving DecidableEq

def defaultEvictionConfig : EvictionConfig := {}

def storeIds (st : Store) : List String := st.traces.map TraceEntry.traceId

def traceCount (st : Store) : Nat := st.traces.length

def storeSpanCount (st : Store) : Nat :=
  (st.traces.map (fun e => e.spans.length)).sum

/-- Modelled from the spec: eviction priority — ascending lastActivityAt,
ties broken by the lower trace identifier (§4.3). `keyLe a b` holds when
`a` is evicted no later than `b`. -/
def keyLe (a b : TraceEntry) : Prop :=
  a.lastActivityAt < b.lastActivityAt ∨
    (a.lastActivityAt = b.lastActivityAt ∧
      (a.traceId = b.traceId ∨ a.traceId < b.traceId))

instance (a b : TraceEntry) : Decidable (keyLe a b) := by
  unfold keyLe; infer_instance

/-- Modelled from the spec: select the eviction-first trace among
`e :: l`, returning it together with the remaining entries. -/
def selectMin (e : TraceEntry) : List TraceEntry → TraceEntry × List TraceEntry
  | [] => (e, [])
  | f :: rest =>
    if keyLe e f then
      ((selectMin e rest).1, f :: (selectMin e rest).2)
    else
      ((selectMin f rest).1, e :: (selectMin f rest).2)

/-- Modelled from the spec: evict the least-recently-active trace as a
whole (§4.3); no-op on an empty store. -/
def evictOldest (st : Store) : Store :=
  match st.traces with
  | [] => st
  | e :: rest => ⟨(selectMin e rest).2⟩

/-- Modelled from the spec: would inserting one more span under `tid`
leave the store above a capacity ceiling (§4.3)? -/
def wouldExceed (cfg : EvictionConfig) (st : Store) (tid : String) : Prop :=
  cfg.maxSpans < storeSpanCount st + 1 ∨
    cfg.maxTraces < traceCount st + (if tid ∈ storeIds st then 0 else 1)

instance (cfg : EvictionConfig) (st : Store) (tid : String) :
    Decidable (wouldExceed cfg st tid) := by
  unfold wouldExceed; infer_instance

/-- Modelled from the spec: evict least-recently-active traces until both
ceilings allow the pending insertion; the fuel bounds the number of
evictions (one per stored trace suffices). -/
def evictLoop (cfg : EvictionConfig) (tid : String) : Nat → Store → Store
  | 0, st => st
  | fuel + 1, st =>
    if wouldExceed cfg st tid then evictLoop cfg tid fuel (evictOldest st) else st

/-- Modelled from the spec: append the new span to its trace, refreshing
lastActivityAt, or create the trace if absent (§4.2). -/
def insertIntoTraces (tid : String) (sp : StoredSpan) (now : Nat) :
    List TraceEntry → List TraceEntry
  | [] => [⟨tid, now, [sp]⟩]
  | e :: rest =>
    if e.traceId = tid then
      ⟨e.traceId, now, e.spans ++ [sp]⟩ :: rest
    else
      e :: insertIntoTraces tid sp now rest

/-- Modelled from the spec: startSpan — evict under capacity pressure,
then perform the insertion; `none` is the CapacityExceeded failure
(§4.2, §4.3). -/
def startSpan (cfg : EvictionConfig) (st : Store) (tid : String)
    (sp : StoredSpan) (now : Nat) : Option Store :=
  if wouldExceed cfg (evictLoop cfg tid (traceCount st) st) tid then none
  else
    some ⟨insertIntoTraces tid sp now (evictLoop cfg tid (traceCount st) st).traces⟩

/-- Modelled from the spec: spansOf — the stored spans of a trace in start
order, empty when the trace is unknown or already evicted (§4.2). -/
def spansOf (st : Store) (tid : String) : List StoredSpan :=
  match st.traces.find? (fun e => e.traceId == tid) with
  | some e => e.spans
  | none => []

def childrenOf (spans : List StoredSpan) (sid : String) : List StoredSpan :=
  spans.filter (fun s => s.parentSpanId == some sid)

def rootsOf (spans : List StoredSpan) : List StoredSpan :=
  spans.filter (fun s => s.parentSpanId == none)

/-- Modelled from the spec: keep the longer of two candidate paths; on
equal length the earlier (first-discovered) one wins (§4.4 tie-break). -/
def longerPath (best cand : List String) : List String :=
  if best.length < cand.length then cand else best

def longestPath (paths : List (List String)) : List String :=
  paths.foldl longerPath []

/-- Modelled from the spec: deepest name path starting at span `s`; the
fuel bounds recursion depth (the parent relation of a well-formed trace is
acyclic, §3). -/
def deepestFrom (spans : List StoredSpan) : Nat → StoredSpan → List String
  | 0, s => [s.name]
  | fuel + 1, s =>
    s.name :: longestPath ((childrenOf spans s.spanId).map (deepestFrom spans fuel))

/-- Modelled from the spec: getDeepestPath — the longest root-to-leaf name
path of the trace (§4.4); empty for an absent trace. -/
def getDeepestPath (st : Store) (tid : String) : List String :=
  let spans := spansOf st tid
  longestPath ((rootsOf spans).map (deepestFrom spans spans.length))

/-- Modelled from the spec: getLeafSpans — spans not referenced as anyone's
parentSpanId within the trace, open or closed alike (§4.4); the interface
projects each to its {spanId, name} part. -/
def getLeafSpans (st : Store) (tid : String) : List StoredSpan :=
  let spans := spansOf st tid
  spans.filter (fun s => spans.all (fun o => o.parentSpanId != some s.spanId))

/-- Modelled from the spec: getTraceSpans, the structural view (§4.4). -/
def getTraceSpans (st : Store) (tid : String) : List SpanView :=
  (spansOf st tid).map (fun s => ⟨s.spanId, s.name, s.parentSpanId⟩)

/-- Modelled from the spec: getTraceSummary (§4.4) — depth is the deepest
path's length, spanCount the stored span total, formattedPath the names
joined with the directional separator, traceUrl the base concatenation
when a base is supplied and absent otherwise. -/
def getTraceSummary (st : Store) (tid : String)
    (options : Option SummaryOptions) : TraceSummary :=
  let dp := getDeepestPath st tid
  { traceId := tid
    path := dp
    formattedPath := String.intercalate " → " dp
    depth := dp.length
    spanCount := (spansOf st tid).length
    traceUrl :=
      match options.bind SummaryOptions.traceUrlBase with
      | some b => some (b ++ "/traces/" ++ tid)
      | none => none }

lemma trace_template_ne_empty (now : Nat) : ("trace-" ++ toString now) ≠ "" := by
  intro h
  have hlen := congrArg String.length h
  rw [String.length_append] at hlen
  have h6 : ("trace-" : String).length = 6 := rfl
  have h0 : ("" : String).length = 0 := rfl
  omega

/-- C3: under the mock layer, for every clock value, traceId and options,
the length of getDeepestPath equals the summary's depth, which in turn
equals the length of the summary's path. -/
theorem mock_deepest_path_length_eq_depth (now : Nat) (tid : String)
    (opts : Option SummaryOptions) :
    (mockGetDeepestPath tid).length = (mockGetTraceSummary now tid opts).depth ∧
    (mockGetTraceSummary now tid opts).depth =
      (mockGetTraceSummary now tid opts).path.length :=
  ⟨rfl, rfl⟩

/-- C7: the mock summary's formattedPath equals its path joined with the
directional separator. -/
theorem mock_formatted_path_join (now : Nat) (tid : String)
    (opts : Option SummaryOptions) :
    (mockGetTraceSummary now tid opts).formattedPath =
      String.intercalate " → " (mockGetTraceSummary now tid opts).path :=
  rfl

/-- C9: under the mock layer, getDeepestPath returns the constant
three-name sequence for every traceId while getTraceSpans and
getLeafSpans return the empty sequence, so none of the reported deepest
path's names appears in the structural view of the same trace. -/
theorem mock_constant_views (tid : String) :
    mockGetDeepestPath tid = ["root", "child1", "child2"] ∧
    mockGetTraceSpans tid = [] ∧
    mockGetLeafSpans tid = [] ∧
    (mockGetDeepestPath tid).filter
      (fun n => (mockGetTraceSpans tid).any (fun v => v.name == n)) = [] :=
  ⟨rfl, rfl, rfl, rfl⟩

/-- C10: the mock getTraceSummary is deterministic — its result does not
depend on the ambient clock, only on its arguments — while the mock
getCurrentTraceId and getCurrentSpanId do read the clock and differ
between instants. -/
theorem mock_summary_deterministic :
    (∀ (t1 t2 : Nat) (tid : String) (opts : Option SummaryOptions),
      mockGetTraceSummary t1 tid opts = mockGetTraceSummary t2 tid opts) ∧
    (mockGetCurrentTraceId 0 == mockGetCurrentTraceId 1) = false ∧
    (mockGetCurrentSpanId 0 == mockGetCurrentSpanId 1) = false :=
  ⟨fun _ _ _ _ => rfl, by decide, by decide⟩

/-- C8: the mock getCurrentTraceId and getCurrentSpanId always return a
value (never null, never the empty string), so a withSpanLogging run over
the mock layer never takes the no-trace fallback branch. -/
theorem mock_ids_nonnull_no_fallback (now : Nat) (userBase : Option String) :
    (mockGetCurrentTraceId now).isSome = true ∧
    (mockGetCurrentSpanId now).isSome = true ∧
    (runWithSpanLogging (mockTree now) userBase now).usedFallback = false := by
  refine ⟨rfl, rfl, ?_⟩
  have hne := trace_template_ne_empty now
  simp [runWithSpanLogging, mockTree, mockGetCurrentTraceId, hne]

/-- C4 counterexample: with a supplied but empty traceUrlBase the mock's
traceUrl is null, not the concatenation the claim demands — the JS
conditional tests truthiness and the empty string is falsy. -/
theorem trace_url_empty_base_counterexample :
    ¬ ((mockGetTraceSummary 0 "t" (some ⟨some ""⟩)).traceUrl =
        some ("" ++ "/traces/" ++ "t")) := by
  decide

/-- C4 (amended): the mock's traceUrl equals traceUrlBase ++ "/traces/" ++
traceId whenever a non-empty base is supplied, and is null when the base
is absent or the empty string. -/
theorem mock_trace_url_formation (now : Nat) (tid : String)
    (opts : Option SummaryOptions) :
    (∀ b, opts.bind SummaryOptions.traceUrlBase = some b → b ≠ "" →
      (mockGetTraceSummary now tid opts).traceUrl =
        some (b ++ "/traces/" ++ tid)) ∧
    (opts.bind SummaryOptions.traceUrlBase = none →
      (mockGetTraceSummary now tid opts).traceUrl = none) ∧
    (opts.bind SummaryOptions.traceUrlBase = some "" →
      (mockGetTraceSummary now tid opts).traceUrl = none) := by
  refine ⟨?_, ?_, ?_⟩
  · intro b hb hne
    simp [mockGetTraceSummary, optTraceUrl, hb, hne]
  · intro hb
    simp [mockGetTraceSummary, optTraceUrl, hb]
  · intro hb
    simp [mockGetTraceSummary, optTraceUrl, hb]

theorem mock_trace_url_formation_witness :
    (some (⟨some "https://x"⟩ : SummaryOptions)).bind SummaryOptions.traceUrlBase =
      some "https://x" ∧
    ("https://x" : String) ≠ "" ∧
    (mockGetTraceSummary 0 "t" (some ⟨some "https://x"⟩)).traceUrl =
      some ("https://x" ++ "/traces/" ++ "t") :=
  ⟨rfl, by decide,
    (mock_trace_url_formation 0 "t" (some ⟨some "https://x"⟩)).1
      "https://x" rfl (by decide)⟩

lemma spansOf_eq_nil_of_not_mem (st : Store) (tid : String)
    (h : tid ∉ storeIds st) : spansOf st tid = [] := by
  unfold spansOf
  have hfind : st.traces.find? (fun e => e.traceId == tid) = none := by
    rw [List.find?_eq_none]
    intro e he
    simp only [beq_iff_eq]
    intro heq
    exact h (heq ▸ List.mem_map_of_mem TraceEntry.traceId he)
  rw [hfind]

/-- C1: every query on a trace absent from the store — unknown or already
evicted — yields an empty or zero-valued result; the query operations are
total Lean functions, embedding the contract that they never raise. -/
theorem absent_trace_queries_empty (st : Store) (tid : String)
    (opts : Option SummaryOptions) (h : tid ∉ storeIds st) :
    getDeepestPath st tid = [] ∧
    getLeafSpans st tid = [] ∧
    getTraceSpans st tid = [] ∧
    (getTraceSummary st tid opts).depth = 0 ∧
    (getTraceSummary st tid opts).spanCount = 0 ∧
    (getTraceSummary st tid opts).path = [] ∧
    (getTraceSummary st tid opts).formattedPath = "" := by
  have hs := spansOf_eq_nil_of_not_mem st tid h
  have hi : String.intercalate " → " ([] : List String) = "" := by decide
  refine ⟨?_, ?_, ?_, ?_, ?_, ?_, ?_⟩ <;>
    simp [getDeepestPath, getLeafSpans, getTraceSpans, getTraceSummary, hs,
      rootsOf, longestPath, hi]

theorem absent_trace_queries_empty_witness :
    ("b" : String) ∉ storeIds ⟨[⟨"a", 0, [⟨"s1", "a", none, "root", 0, none⟩]⟩]⟩ ∧
    getDeepestPath ⟨[⟨"a", 0, [⟨"s1", "a", none, "root", 0, none⟩]⟩]⟩ "b" = [] ∧
    getLeafSpans ⟨[⟨"a", 0, [⟨"s1", "a", none, "root", 0, none⟩]⟩]⟩ "b" = [] ∧
    (getTraceSummary ⟨[⟨"a", 0, [⟨"s1", "a", none, "root", 0, none⟩]⟩]⟩ "b" none).depth = 0 ∧
    (getTraceSummary ⟨[⟨"a", 0, [⟨"s1", "a", none, "root", 0, none⟩]⟩]⟩ "b" none).spanCount = 0 := by
  have happ := absent_trace_queries_empty
    ⟨[⟨"a", 0, [⟨"s1", "a", none, "root", 0, none⟩]⟩]⟩ "b" none (by decide)
  exact ⟨by decide, happ.1, happ.2.1, happ.2.2.2.1, happ.2.2.2.2.1⟩

/-- A SpanTree implementation whose summaries carry a present but empty
traceUrl; legal for the interface, whose traceUrl is string-or-null. -/
def urlEmptyTree : SpanTreeImpl where
  getCurrentTraceId := some "t"
  getTraceSummary := fun tid _ => ⟨tid, [], "", 0, 0, some ""⟩

/-- C2 counterexample: under urlEmptyTree the finalizer's summary has a
present traceUrl, yet no span_tree.trace_url attribute is attached — the
source guards the attachment with a JS truthiness test, which the empty
string fails. This refutes the claim's "exactly when present". -/
theorem trace_url_presence_counterexample :
    (finalizerSummary urlEmptyTree none "t").traceUrl.isSome = true ∧
    (runWithSpanLogging urlEmptyTree none 0).attrs =
      [("span_tree.depth", AttrValue.num 0),
       ("span_tree.deepest_path", AttrValue.str ""),
       ("span_tree.span_count", AttrValue.num 0)] := by
  refine ⟨rfl, ?_⟩
  decide

/-- C2 (amended): when a trace id is available (non-null and, per the JS
truthiness test of the source, non-empty) at the start, the finalizer
obtains getTraceSummary with the supplied or default traceUrlBase,
attaches the span_tree.depth, span_tree.deepest_path and
span_tree.span_count attributes to the active span, attaches
span_tree.trace_url exactly when the summary's traceUrl is present and
non-empty, and appends exactly one audit record carrying those same
values. -/
theorem withSpanLogging_finalizer_behavior (tree : SpanTreeImpl)
    (userBase : Option String) (now : Nat) (tid : String)
    (h : tree.getCurrentTraceId = some tid) (hne : tid ≠ "") :
    (runWithSpanLogging tree userBase now).usedFallback = false ∧
    ("span_tree.depth",
      AttrValue.num (finalizerSummary tree userBase tid).depth) ∈
      (runWithSpanLogging tree userBase now).attrs ∧
    ("span_tree.deepest_path",
      AttrValue.str (finalizerSummary tree userBase tid).formattedPath) ∈
      (runWithSpanLogging tree userBase now).attrs ∧
    ("span_tree.span_count",
      AttrValue.num (finalizerSummary tree userBase tid).spanCount) ∈
      (runWithSpanLogging tree userBase now).attrs ∧
    ((∃ v, ("span_tree.trace_url", AttrValue.str v) ∈
        (runWithSpanLogging tree userBase now).attrs) ↔
      (∃ v, (finalizerSummary tree userBase tid).traceUrl = some v ∧ v ≠ "")) ∧
    (runWithSpanLogging tree userBase now).audit =
      [⟨tid, (finalizerSummary tree userBase tid).formattedPath,
        (finalizerSummary tree userBase tid).depth,
        (finalizerSummary tree userBase tid).spanCount, now,
        (finalizerSummary tree userBase tid).traceUrl⟩] := by
  rcases hu : (finalizerSummary tree userBase tid).traceUrl with _ | u
  · refine ⟨?_, ?_, ?_, ?_, ?_, ?_⟩ <;>
      simp [runWithSpanLogging, h, hne, hu]
  · by_cases hue : u = ""
    · subst hue
      refine ⟨?_, ?_, ?_, ?_, ?_, ?_⟩ <;>
        simp [runWithSpanLogging, h, hne, hu]
    · refine ⟨?_, ?_, ?_, ?_, ?_, ?_⟩ <;>
        simp [runWithSpanLogging, h, hne, hu, hue]

theorem withSpanLogging_finalizer_behavior_witness :
    (mockTree 3).getCurrentTraceId = some "trace-3" ∧
    ("trace-3" : String) ≠ "" ∧
    (runWithSpanLogging (mockTree 3) none 3).usedFallback = false ∧
    ("span_tree.depth",
      AttrValue.num (finalizerSummary (mockTree 3) none "trace-3").depth) ∈
      (runWithSpanLogging (mockTree 3) none 3).attrs ∧
    (runWithSpanLogging (mockTree 3) none 3).audit =
      [⟨"trace-3", (finalizerSummary (mockTree 3) none "trace-3").formattedPath,
        (finalizerSummary (mockTree 3) none "trace-3").depth,
        (finalizerSummary (mockTree 3) none "trace-3").spanCount, 3,
        (finalizerSummary (mockTree 3) none "trace-3").traceUrl⟩] := by
  have happ := withSpanLogging_finalizer_behavior (mockTree 3) none 3 "trace-3"
    rfl (by decide)
  exact ⟨rfl, by decide, happ.1, happ.2.1, happ.2.2.2.2.2⟩

/-- C6: a span of a trace is a leaf — a member of getLeafSpans — exactly
when no other span of the same trace names it as parent; the open or
closed state (endedAt) plays no role. The well-formedness hypothesis is
the data-model invariant that no span is its own parent (§3: a parent must
already be present, so no forward or self references). -/
theorem leaf_spans_iff_childless (st : Store) (tid : String) (s : StoredSpan)
    (hs : s ∈ spansOf st tid)
    (hwf : ∀ o ∈ spansOf st tid, o.parentSpanId ≠ some o.spanId) :
    s ∈ getLeafSpans st tid ↔
      ¬ ∃ o ∈ spansOf st tid,
        o.spanId ≠ s.spanId ∧ o.parentSpanId = some s.spanId := by
  unfold getLeafSpans
  rw [List.mem_filter]
  simp only [List.all_eq_true, bne_iff_ne, ne_eq]
  constructor
  · rintro ⟨-, hall⟩ ⟨o, ho, -, hpar⟩
    exact hall o ho hpar
  · intro hno
    refine ⟨hs, fun o ho hpar => ?_⟩
    by_cases heq : o.spanId = s.spanId
    · exact hwf o ho (hpar.trans (congrArg Option.some heq.symm))
    · exact hno ⟨o, ho, heq, hpar⟩

def demoSpanRoot : StoredSpan := ⟨"s0", "T", none, "root", 0, some 10⟩

def demoSpanA : StoredSpan := ⟨"s1", "T", some "s0", "a", 1, some 9⟩

def demoSpanB : StoredSpan := ⟨"s2", "T", some "s1", "b", 2, some 8⟩

def demoSpanC : StoredSpan := ⟨"s3", "T", some "s0", "c", 1, none⟩

/-- The §8 scenario trace: root -> a -> b and root -> c, with c open. -/
def demoStore : Store :=
  ⟨[⟨"T", 2, [demoSpanRoot, demoSpanA, demoSpanB, demoSpanC]⟩]⟩

theorem leaf_spans_iff_childless_witness :
    demoSpanB ∈ spansOf demoStore "T" ∧
    ((spansOf demoStore "T").all
      (fun o => o.parentSpanId != some o.spanId)) = true ∧
    demoSpanB ∈ getLeafSpans demoStore "T" :=
  ⟨by decide, by decide,
    (leaf_spans_iff_childless demoStore "T" demoSpanB (by decide)
      (by decide)).mpr (by decide)⟩

lemma keyLe_refl (a : TraceEntry) : keyLe a a := Or.inr ⟨rfl, Or.inl rfl⟩

lemma keyLe_total (a b : TraceEntry) : keyLe a b ∨ keyLe b a := by
  rcases Nat.lt_trichotomy a.lastActivityAt b.lastActivityAt with h | h | h
  · exact Or.inl (Or.inl h)
  · rcases lt_trichotomy a.traceId b.traceId with h2 | h2 | h2
    · exact Or.inl (Or.inr ⟨h, Or.inr h2⟩)
    · exact Or.inl (Or.inr ⟨h, Or.inl h2⟩)
    · exact Or.inr (Or.inr ⟨h.symm, Or.inr h2⟩)
  · exact Or.inr (Or.inl h)

lemma keyLe_trans {a b c : TraceEntry} (h1 : keyLe a b) (h2 : keyLe b c) :
    keyLe a c := by
  rcases h1 with h1 | ⟨e1, s1⟩ <;> rcases h2 with h2 | ⟨e2, s2⟩
  · exact Or.inl (by omega)
  · exact Or.inl (by omega)
  · exact Or.inl (by omega)
  · refine Or.inr ⟨by omega, ?_⟩
    rcases s1 with s1 | s1 <;> rcases s2 with s2 | s2
    · exact Or.inl (s1.trans s2)
    · exact Or.inr (lt_of_eq_of_lt s1 s2)
    · exact Or.inr (lt_of_lt_of_eq s1 s2)
    · exact Or.inr (lt_trans s1 s2)

lemma selectMin_perm : ∀ (l : List TraceEntry) (e : TraceEntry),
    List.Perm (e :: l) ((selectMin e l).1 :: (selectMin e l).2) := by
  intro l
  induction l with
  | nil => intro e; simp [selectMin]
  | cons f rest ih =>
    intro e
    by_cases h : keyLe e f
    · simp only [selectMin]
      rw [if_pos h]
      exact (List.Perm.swap f e rest).trans
        (((ih e).cons f).trans (List.Perm.swap _ _ _))
    · simp only [selectMin]
      rw [if_neg h]
      exact ((ih f).cons e).trans (List.Perm.swap _ _ _)

lemma selectMin_le : ∀ (l : List TraceEntry) (e x : TraceEntry),
    x ∈ e :: l → keyLe (selectMin e l).1 x := by
  intro l
  induction l with
  | nil =>
    intro e x hx
    rcases List.mem_singleton.mp hx with rfl
    exact keyLe_refl x
  | cons f rest ih =>
    intro e x hx
    by_cases h : keyLe e f
    · simp only [selectMin]
      rw [if_pos h]
      rcases List.mem_cons.mp hx with rfl | hx2
      · exact ih x x (List.mem_cons_self x rest)
      · rcases List.mem_cons.mp hx2 with rfl | hx3
        · exact keyLe_trans (ih e e (List.mem_cons_self e rest)) h
        · exact ih e x (List.mem_cons_of_mem e hx3)
    · have hfe : keyLe f e := (keyLe_total e f).resolve_left h
      simp only [selectMin]
      rw [if_neg h]
      rcases List.mem_cons.mp hx with rfl | hx2
      · exact keyLe_trans (ih f f (List.mem_cons_self f rest)) hfe
      · rcases List.mem_cons.mp hx2 with rfl | hx3
        · exact ih x x (List.mem_cons_self x rest)
        · exact ih f x (List.mem_cons_of_mem f hx3)

lemma evictOldest_subset : ∀ st : Store, (evictOldest st).traces ⊆ st.traces := by
  intro ⟨l⟩
  cases l with
  | nil => simp [evictOldest]
  | cons e rest =>
    intro x hx
    simp only [evictOldest] at hx
    exact (selectMin_perm rest e).symm.subset (List.mem_cons_of_mem _ hx)

lemma nodup_ids_evictOldest (st : Store) (h : (storeIds st).Nodup) :
    (storeIds (evictOldest st)).Nodup := by
  obtain ⟨l⟩ := st
  cases l with
  | nil => exact h
  | cons e rest =>
    have hperm := (selectMin_perm rest e).map TraceEntry.traceId
    have h2 := hperm.nodup_iff.mp h
    exact (List.nodup_cons.mp h2).2

lemma evictLoop_subset (cfg : EvictionConfig) (tid : String) :
    ∀ (fuel : Nat) (st : Store),
      (evictLoop cfg tid fuel st).traces ⊆ st.traces := by
  intro fuel
  induction fuel with
  | zero => intro st; exact List.Subset.refl _
  | succ n ih =>
    intro st
    simp only [evictLoop]
    split
    · exact (ih (evictOldest st)).trans (evictOldest_subset st)
    · exact List.Subset.refl _

lemma nodup_ids_evictLoop (cfg : EvictionConfig) (tid : String) :
    ∀ (fuel : Nat) (st : Store), (storeIds st).Nodup →
      (storeIds (evictLoop cfg tid fuel st)).Nodup := by
  intro fuel
  induction fuel with
  | zero => intro st h; exact h
  | succ n ih =>
    intro st h
    simp only [evictLoop]
    split
    · exact ih _ (nodup_ids_evictOldest st h)
    · exact h

lemma evictLoop_order (cfg : EvictionConfig) (tid : String) :
    ∀ (fuel : Nat) (st : Store), (storeIds st).Nodup →
      ∀ e ∈ st.traces, e.traceId ∉ storeIds (evictLoop cfg tid fuel st) →
        ∀ s ∈ (evictLoop cfg tid fuel st).traces, keyLe e s := by
  intro fuel
  induction fuel with
  | zero =>
    intro st hnd e he hout s hs
    exact absurd (List.mem_map_of_mem TraceEntry.traceId he) hout
  | succ n ih =>
    intro st hnd e he hout s hs
    simp only [evictLoop] at hout hs
    by_cases hex : wouldExceed cfg st tid
    · rw [if_pos hex] at hout hs
      obtain ⟨l⟩ := st
      cases l with
      | nil => cases he
      | cons f rest =>
        have hperm := selectMin_perm rest f
        have he2 : e ∈ (selectMin f rest).1 :: (selectMin f rest).2 :=
          hperm.subset he
        rcases List.mem_cons.mp he2 with heq | he3
        · have hs1 : s ∈ (evictOldest ⟨f :: rest⟩).traces :=
            evictLoop_subset cfg tid n _ hs
          simp only [evictOldest] at hs1
          have hs2 : s ∈ f :: rest :=
            hperm.symm.subset (List.mem_cons_of_mem _ hs1)
          exact heq ▸ selectMin_le rest f s hs2
        · exact ih (evictOldest ⟨f :: rest⟩) (nodup_ids_evictOldest _ hnd)
            e he3 hout s hs
    · rw [if_neg hex] at hout hs
      exact absurd (List.mem_map_of_mem TraceEntry.traceId he) hout

lemma length_insertIntoTraces (tid : String) (sp : StoredSpan) (now : Nat) :
    ∀ l : List TraceEntry, (insertIntoTraces tid sp now l).length =
      if tid ∈ l.map TraceEntry.traceId then l.length else l.length + 1 := by
  intro l
  induction l with
  | nil => simp [insertIntoTraces]
  | cons e rest ih =>
    by_cases h : e.traceId = tid
    · simp only [insertIntoTraces]
      rw [if_pos h]
      have hmem : tid ∈ (e :: rest).map TraceEntry.traceId := by
        simp [h]
      rw [if_pos hmem]
      simp
    · simp only [insertIntoTraces]
      rw [if_neg h]
      simp only [List.length_cons, ih, List.map_cons, List.mem_cons]
      have hne : ¬ (tid = e.traceId) := fun hh => h hh.symm
      by_cases h2 : tid ∈ rest.map TraceEntry.traceId
      · simp [h2, hne]
      · simp [h2, hne]

lemma spanSum_insertIntoTraces (tid : String) (sp : StoredSpan) (now : Nat) :
    ∀ l : List TraceEntry,
      ((insertIntoTraces tid sp now l).map (fun e => e.spans.length)).sum =
        (l.map (fun e => e.spans.length)).sum + 1 := by
  intro l
  induction l with
  | nil => simp [insertIntoTraces]
  | cons e rest ih =>
    simp only [insertIntoTraces]
    split
    · simp only [List.map_cons, List.sum_cons, List.length_append,
        List.length_singleton]
      omega
    · simp only [List.map_cons, List.sum_cons, ih]
      omega

lemma mem_ids_insertIntoTraces (tid : String) (sp : StoredSpan) (now : Nat)
    (x : String) : ∀ l : List TraceEntry,
      x ∈ (insertIntoTraces tid sp now l).map TraceEntry.traceId ↔
        x ∈ l.map TraceEntry.traceId ∨ x = tid := by
  intro l
  induction l with
  | nil => simp [insertIntoTraces]
  | cons e rest ih =>
    by_cases h : e.traceId = tid
    · simp only [insertIntoTraces]
      rw [if_pos h]
      simp only [List.map_cons, List.mem_cons]
      constructor
      · exact fun hh => Or.inl hh
      · rintro (hh | hh)
        · exact hh
        · exact Or.inl (hh.trans h.symm)
    · simp only [insertIntoTraces]
      rw [if_neg h]
      simp only [List.map_cons, List.mem_cons, ih]
      tauto

lemma mem_of_ids_mem {l l' : List TraceEntry}
    (hnd : (l.map TraceEntry.traceId).Nodup) (hsub : l' ⊆ l)
    {s : TraceEntry} (hs : s ∈ l)
    (hid : s.traceId ∈ l'.map TraceEntry.traceId) : s ∈ l' := by
  obtain ⟨t, ht, htid⟩ := List.mem_map.mp hid
  have ht2 : t ∈ l := hsub ht
  have heq : t = s := List.inj_on_of_nodup_map hnd ht2 hs htid
  exact heq ▸ ht

lemma storeSpanCount_mk (l : List TraceEntry) :
    storeSpanCount ⟨l⟩ = (l.map (fun e => e.spans.length)).sum := rfl

lemma traceCount_mk (l : List TraceEntry) : traceCount ⟨l⟩ = l.length := rfl

lemma storeIds_mk (l : List TraceEntry) :
    storeIds ⟨l⟩ = l.map TraceEntry.traceId := rfl

/-- C5: whenever startSpan succeeds, the resulting store holds at most the
configured maximum span count and at most the configured maximum trace
count; any trace evicted to make room precedes — in the lastActivityAt
order with trace-id tie-break — every unrelated trace that survived, i.e.
whole traces are evicted least-recently-active first. -/
theorem startSpan_respects_ceilings (cfg : EvictionConfig) (st : Store)
    (tid : String) (sp : StoredSpan) (now : Nat) (st2 : Store)
    (hnd : (storeIds st).Nodup)
    (h : startSpan cfg st tid sp now = some st2) :
    storeSpanCount st2 ≤ cfg.maxSpans ∧
    traceCount st2 ≤ cfg.maxTraces ∧
    ∀ e ∈ st.traces, e.traceId ∉ storeIds st2 →
      ∀ s ∈ st.traces, s.traceId ∈ storeIds st2 → s.traceId ≠ tid →
        keyLe e s := by
  unfold startSpan at h
  set st1 := evictLoop cfg tid (traceCount st) st with hst1
  by_cases hex : wouldExceed cfg st1 tid
  · rw [if_pos hex] at h
    simp at h
  · rw [if_neg hex] at h
    have hst2 : st2 = ⟨insertIntoTraces tid sp now st1.traces⟩ :=
      (Option.some.inj h).symm
    subst hst2
    unfold wouldExceed at hex
    push_neg at hex
    obtain ⟨hspan, htr⟩ := hex
    refine ⟨?_, ?_, ?_⟩
    · rw [storeSpanCount_mk, spanSum_insertIntoTraces]
      have hsc1 : storeSpanCount st1 =
          (st1.traces.map (fun e => e.spans.length)).sum := rfl
      omega
    · rw [traceCount_mk, length_insertIntoTraces]
      have htc1 : traceCount st1 = st1.traces.length := rfl
      have hids1 : storeIds st1 = st1.traces.map TraceEntry.traceId := rfl
      rw [hids1] at htr
      by_cases hm : tid ∈ st1.traces.map TraceEntry.traceId
      · rw [if_pos hm]
        rw [if_pos hm] at htr
        omega
      · rw [if_neg hm]
        rw [if_neg hm] at htr
        omega
    · intro e he hout s hs hin hne2
      rw [storeIds_mk] at hout hin
      have hout1 : e.traceId ∉ storeIds st1 := by
        intro hmem
        exact hout ((mem_ids_insertIntoTraces tid sp now e.traceId
          st1.traces).mpr (Or.inl hmem))
      have hin1 : s.traceId ∈ storeIds st1 := by
        rcases (mem_ids_insertIntoTraces tid sp now s.traceId
            st1.traces).mp hin with h1 | h1
        · exact h1
        · exact absurd h1 hne2
      have hs1 : s ∈ st1.traces :=
        mem_of_ids_mem hnd (evictLoop_subset cfg tid (traceCount st) st) hs hin1
      exact evictLoop_order cfg tid (traceCount st) st hnd e he hout1 s hs1

def witSpanA : StoredSpan := ⟨"p1", "a", none, "ra", 0, none⟩

def witSpanB : StoredSpan := ⟨"p2", "b", none, "rb", 10, none⟩

def witStore : Store := ⟨[⟨"a", 5, [witSpanA]⟩]⟩

def witCfg : EvictionConfig := ⟨2, 1⟩

def witResult : Store := ⟨[⟨"b", 10, [witSpanB]⟩]⟩

theorem startSpan_respects_ceilings_witness :
    (storeIds witStore).Nodup ∧
    startSpan witCfg witStore "b" witSpanB 10 = some witResult ∧
    storeSpanCount witResult ≤ witCfg.maxSpans ∧
    traceCount witResult ≤ witCfg.maxTraces := by
  have happ := startSpan_respects_ceilings witCfg witStore "b" witSpanB 10
    witResult (by decide) (by decide)
  exact ⟨by decide, by decide, happ.1, happ.2.1⟩

end SpanTreeDemo
